import Mathlib

/-!
Verification of `marvel_stats.py`: a shallow embedding of the program's own
logic (graph simplification, top-N ranking, report/plot assembly) together
with the documented semantics of the networkx primitives the program calls
(`Graph.add_edge` updates the attribute dict of an existing edge;
`nx.density`; `nx.core_number` raises `NetworkXError` exactly when the input
graph has self-loops, hence `nx.k_core` returns a possibly-empty subgraph and
never raises for a too-large `k` on a loop-free simple graph).

Node identifiers are strings; attribute mappings are association lists with
Python-dict update semantics.  Numeric centrality scores are rationals;
quantities produced by external library algorithms (closeness, betweenness,
PageRank, eigenvector centrality, the spring layout) enter as oracles in the
environment, exactly as the program consumes them as black boxes.
-/

namespace MarvelStats

/-- Lexicographic (code-point) comparison of character lists, the order
Python uses on strings.  Structural so that it evaluates by `decide`. -/
def strLeAux : List Char → List Char → Bool
  | [], _ => true
  | _ :: _, [] => false
  | a :: as, b :: bs =>
      if a.toNat < b.toNat then true
      else if b.toNat < a.toNat then false
      else strLeAux as bs

/-- Python string `<=`: lexicographic on code points. -/
def strLe (s t : String) : Bool := strLeAux s.data t.data

/-- Attribute mapping: a Python dict as an insertion-ordered association list. -/
abbrev Attrs := List (String × String)

/-- `d[k] = v` with Python-dict semantics: replace in place if the key is
present, otherwise append. -/
def setKey (d : Attrs) (k v : String) : Attrs :=
  if d.any (fun p => p.1 == k) then
    d.map (fun p => if p.1 = k then (k, v) else p)
  else d ++ [(k, v)]

/-- Python `old.update(new)`: every key of `new` is written into `old`. -/
def dictUpdate (old new : Attrs) : Attrs :=
  new.foldl (fun d p => setKey d p.1 p.2) old

/-- Lookup in an attribute mapping. -/
def attrLookup (d : Attrs) (k : String) : Option String :=
  (d.find? (fun p => p.1 == k)).map Prod.snd

/-- An edge record of an `nx.Graph`: the two stored endpoints and the
attribute dict. -/
abbrev Edge := String × String × Attrs

/-- `{u, v} = {x, y}` as unordered pairs: the membership test `v in adj[u]`
used by `nx.Graph.add_edge`. -/
def sameUPair (u v x y : String) : Bool :=
  decide ((u = x ∧ v = y) ∨ (u = y ∧ v = x))

/-- The simple undirected attributed graph `nx.Graph`, as its observable
node list (insertion-ordered, unique names) and edge list (insertion-ordered,
unique unordered endpoint pairs). -/
structure NXGraph where
  nodes : List (String × Attrs)
  edges : List Edge

def emptyGraph : NXGraph := ⟨[], []⟩

/-- `G.add_node(n)` as performed implicitly by `add_edge` for a missing
endpoint: append with an empty attribute dict. -/
def addNodeIfAbsent (g : NXGraph) (n : String) : NXGraph :=
  if g.nodes.any (fun p => p.1 == n) then g
  else { g with nodes := g.nodes ++ [(n, [])] }

/-- `G.add_node(n, **a)`: update the attribute dict of an existing node,
else append the node. -/
def addNodeWith (g : NXGraph) (n : String) (a : Attrs) : NXGraph :=
  if g.nodes.any (fun p => p.1 == n) then
    { g with nodes := g.nodes.map (fun p => if p.1 = n then (p.1, dictUpdate p.2 a) else p) }
  else { g with nodes := g.nodes ++ [(n, a)] }

/-- `G.add_nodes_from(items)` over `(name, data)` pairs. -/
def addNodesFrom (g : NXGraph) (l : List (String × Attrs)) : NXGraph :=
  l.foldl (fun h p => addNodeWith h p.1 p.2) g

/-- `G.add_edge(u, v, **data)` of networkx: missing endpoints are added; if
the unordered pair is already present its attribute dict is updated
(`datadict.update(attr)`), otherwise a fresh dict filled from `data` is
appended. -/
def addEdgeEdges (es : List Edge) (u v : String) (d : Attrs) : List Edge :=
  match es.find? (fun e => sameUPair e.1 e.2.1 u v) with
  | some _ =>
      es.map (fun e => if sameUPair e.1 e.2.1 u v then (e.1, e.2.1, dictUpdate e.2.2 d) else e)
  | none => es ++ [(u, v, dictUpdate [] d)]

def addEdge (g : NXGraph) (u v : String) (d : Attrs) : NXGraph :=
  let g1 := addNodeIfAbsent (addNodeIfAbsent g u) v
  { g1 with edges := addEdgeEdges g1.edges u v d }

/-- The raw graph returned by `nx.read_graphml`: possibly directed and with
parallel edges, so the edge list may repeat or reverse endpoint pairs. -/
structure RawGraph where
  nodes : List (String × Attrs)
  edges : List Edge

/-- The per-edge step of the simplification loop in `main`:
`if u != v: G.add_edge(u, v, **data)`. -/
def simplifyStep (g : NXGraph) (e : Edge) : NXGraph :=
  if e.1 ≠ e.2.1 then addEdge g e.1 e.2.1 e.2.2 else g

def foldEdges (g : NXGraph) (es : List Edge) : NXGraph :=
  es.foldl simplifyStep g

/-- The simplification in `main`: copy all raw nodes with data, then insert
every non-self-loop raw edge. -/
def simplify (raw : RawGraph) : NXGraph :=
  foldEdges (addNodesFrom emptyGraph raw.nodes) raw.edges

/-- Attribute dict of the edge between `u` and `v` in an edge list. -/
def edgeAttrsIn (es : List Edge) (u v : String) : Option Attrs :=
  (es.find? (fun e => sameUPair e.1 e.2.1 u v)).map (fun e => e.2.2)

/-- Attribute dict of the edge between `u` and `v`, if present. -/
def edgeAttrLookup (g : NXGraph) (u v : String) : Option Attrs :=
  edgeAttrsIn g.edges u v

/-- Node attribute dict by name. -/
def lookupNode (g : NXGraph) (n : String) : Option Attrs :=
  (g.nodes.find? (fun p => p.1 == n)).map Prod.snd

/-- The attribute dicts, in order, of the raw edges that the simplification
loop inserts between `x` and `y` (non-self-loop edges joining that unordered
pair). -/
def relAttrs (es : List Edge) (x y : String) : List Attrs :=
  (es.filter (fun e => decide (e.1 ≠ e.2.1) && sameUPair e.1 e.2.1 x y)).map
    (fun e => e.2.2)

/-- One `add_edge` step viewed on the attribute dict of a fixed unordered
pair: an absent dict behaves as `{}` and is updated with the new data. -/
def optStep (o : Option Attrs) (a : Attrs) : Option Attrs :=
  some (dictUpdate (o.getD []) a)

/-- `nx.number_of_selfloops(G) > 0`, the condition under which
`nx.core_number` (and hence `nx.k_core`) raises `NetworkXError`. -/
def hasSelfLoop (g : NXGraph) : Bool :=
  g.edges.any (fun e => e.1 == e.2.1)

/-- `G.degree()[u]`: incident edges, a self-loop counting twice. -/
def degreeOf (g : NXGraph) (u : String) : Nat :=
  (g.edges.filter (fun e => e.1 == u || e.2.1 == u)).length +
    (g.edges.filter (fun e => e.1 == u && e.2.1 == u)).length

/-- `dict(G.degree())` in node insertion order. -/
def degreesOf (g : NXGraph) : List (String × Nat) :=
  g.nodes.map (fun p => (p.1, degreeOf g p.1))

/-- `nx.density(G)` for an undirected graph: `0` when `m = 0` or `n <= 1`,
otherwise `2m / (n(n-1))`, over exact rationals. -/
def density (g : NXGraph) : ℚ :=
  if g.edges.length = 0 ∨ g.nodes.length ≤ 1 then 0
  else (2 * (g.edges.length : ℚ)) / ((g.nodes.length : ℚ) * ((g.nodes.length : ℚ) - 1))

/-- `nx.degree_centrality(G)`: every node scores `1` on graphs with at most
one node, else `degree / (n - 1)`. -/
def degCent (g : NXGraph) : List (String × ℚ) :=
  if g.nodes.length ≤ 1 then g.nodes.map (fun p => (p.1, (1 : ℚ)))
  else g.nodes.map (fun p => (p.1, (degreeOf g p.1 : ℚ) / ((g.nodes.length : ℚ) - 1)))

/-- Neighbours of `u` (other endpoints of incident edges). -/
def neighborsOf (g : NXGraph) (u : String) : List String :=
  (g.edges.filter (fun e => e.1 == u || e.2.1 == u)).map
    (fun e => if e.1 == u then e.2.1 else e.1)

/-- One closure pass of breadth-first reachability, with fuel. -/
def reachIter (g : NXGraph) : Nat → List String → List String
  | 0, s => s
  | m + 1, s =>
      let s' := (s ++ s.foldr (fun u acc => neighborsOf g u ++ acc) []).dedup
      if s'.length = s.length then s else reachIter g m s'

/-- `nx.is_connected(G)`: every node reachable from the first node. -/
def isConnected (g : NXGraph) : Bool :=
  match g.nodes.map Prod.fst with
  | [] => false
  | h :: _ =>
      g.nodes.all (fun p => (reachIter g g.nodes.length [h]).contains p.1)

/-- Degree of `u` counted within the node set `s`. -/
def degIn (g : NXGraph) (s : List String) (u : String) : Nat :=
  (g.edges.filter (fun e =>
      decide ((e.1 = u ∧ e.2.1 ∈ s) ∨ (e.2.1 = u ∧ e.1 ∈ s)))).length

/-- One peeling pass of the k-core computation: keep the nodes of degree at
least `k` within the current set. -/
def peel (g : NXGraph) (k : Int) (s : List String) : List String :=
  s.filter (fun u => decide (k ≤ (degIn g s u : Int)))

/-- Iterate peeling to the fixed point (fuel bounds the iteration count). -/
def peelIter (g : NXGraph) (k : Int) : Nat → List String → List String
  | 0, s => s
  | m + 1, s =>
      let s' := peel g k s
      if s'.length = s.length then s else peelIter g k m s'

/-- The node set of `nx.k_core(G, k)`: the maximal subset in which every
node keeps degree at least `k`. -/
def kCoreNodes (g : NXGraph) (k : Int) : List String :=
  peelIter g k g.nodes.length (g.nodes.map Prod.fst)

def coreNonempty (g : NXGraph) (j : Nat) : Bool :=
  !(kCoreNodes g (j : Int)).isEmpty

/-- The graph's maximum core number: the largest `k` with a non-empty
`k`-core (`max(nx.core_number(G).values())`). -/
def maxCoreNat (g : NXGraph) : Nat :=
  ((List.range (g.nodes.length + 1)).filter (coreNonempty g)).foldr Nat.max 0

def maxCoreInt (g : NXGraph) : Int := (maxCoreNat g : Int)

/-- The ranking preorder of `top_n`: Python's ascending order on the key
`(-score, node)` — higher score first, ties by ascending identifier. -/
def rankR {α : Type} [LinearOrder α] (a b : String × α) : Prop :=
  b.2 < a.2 ∨ (a.2 = b.2 ∧ strLe a.1 b.1 = true)

instance {α : Type} [LinearOrder α] : DecidableRel (rankR (α := α)) := fun a b => by
  unfold rankR
  exact inferInstance

/-- Python list slicing `l[:k]`, including the negative-index semantics:
`l[:k] = l[:len(l) + k]` for `k < 0`, clamped at the empty list. -/
def pySlice {β : Type} (k : Int) (l : List β) : List β :=
  if 0 ≤ k then l.take k.toNat else l.take ((l.length : Int) + k).toNat

/-- `sorted(d.items(), key=lambda x: (-x[1], x[0]))`. -/
def sortedRanking {α : Type} [LinearOrder α] (d : List (String × α)) : List (String × α) :=
  List.insertionSort (rankR (α := α)) d

/-- `top_n(d, k) = sorted(d.items(), key=lambda x: (-x[1], x[0]))[:k]`. -/
def top_n {α : Type} [LinearOrder α] (d : List (String × α)) (k : Int) : List (String × α) :=
  pySlice k (sortedRanking d)

/-- Zero padding used when printing the fractional part. -/
def padZeros (n : Nat) (s : String) : String :=
  if s.length < n then String.mk (List.replicate (n - s.length) '0') ++ s else s

/-- Model of the `:.6f` format directive on an exact rational value. -/
def fmt6 (q : ℚ) : String :=
  let scaled : ℤ := round (|q| * 1000000)
  let ip := scaled / 1000000
  let fp := (scaled % 1000000).toNat
  (if q < 0 then "-" else "") ++ toString ip ++ "." ++ padZeros 6 (toString fp)

/-- Python's `str` on a boolean. -/
def pyBool (b : Bool) : String := if b then "True" else "False"

/-- The numbered rows `"{i}. {n}: {val}"` of an integer-valued ranking. -/
def rowsNat (l : List (String × Nat)) : List String :=
  (List.enumFrom 1 l).map
    (fun p => toString p.1 ++ ". " ++ p.2.1 ++ ": " ++ toString p.2.2)

/-- The numbered rows `"{i}. {n}: {val:.6f}"` of a rational-valued ranking. -/
def rowsQ (l : List (String × ℚ)) : List String :=
  (List.enumFrom 1 l).map
    (fun p => toString p.1 ++ ". " ++ p.2.1 ++ ": " ++ fmt6 p.2.2)

/-- Every print call of the report up to and including PageRank, in program
order.  Closeness, betweenness and PageRank values come from the library and
are passed in as score mappings. -/
def preEigLines (g : NXGraph) (closeO betO prO : List (String × ℚ)) (top : Int) :
    List String :=
  ["=== Basic Statistics ===",
   "Nodes: " ++ toString g.nodes.length,
   "Edges: " ++ toString g.edges.length,
   "Density: " ++ fmt6 (density g),
   "Connected: " ++ pyBool (isConnected g),
   "\n=== Top by Degree (most interactions) ==="] ++
  rowsNat (top_n (degreesOf g) top) ++
  ["\n=== Centralities (popularity/influence) ===",
   "\nTop Degree Centrality:"] ++
  rowsQ (top_n (degCent g) top) ++
  ["\nTop Closeness Centrality:"] ++ rowsQ (top_n closeO top) ++
  ["\nTop Betweenness Centrality:"] ++ rowsQ (top_n betO top) ++
  ["\nTop PageRank:"] ++ rowsQ (top_n prO top)

/-- The eigenvector-centrality section: the `try` block prints the ranking,
the `except nx.NetworkXException` handler prints the one-line notice. -/
def eigSection (eigO : Except String (List (String × ℚ))) (top : Int) : List String :=
  match eigO with
  | .ok l => ["\nTop Eigenvector Centrality:"] ++ rowsQ (top_n l top)
  | .error e => ["\n[Eigenvector centrality skipped: " ++ e ++ "]"]

/-- Command-line arguments (`prefix` is a Lean keyword, stored as `pfx`). -/
structure Args where
  graphml : String
  top : Int
  plot : Bool
  k : Int
  seed : Int
  pfx : String
  labelTop : Int

/-- One saved PNG: its filename and the node-position assignment actually
handed to the drawing calls. -/
structure PlotFile where
  name : String
  nodePos : List (String × (ℚ × ℚ))

def noFile : PlotFile := ⟨"", []⟩

/-- The external world of one run: the filesystem check, `Path.resolve`, the
parsed raw graph, and the library-computed numeric oracles. -/
structure Env where
  fileExists : Bool
  resolve : String → String
  raw : RawGraph
  closeO : List (String × ℚ)
  betO : List (String × ℚ)
  prO : List (String × ℚ)
  eigO : Except String (List (String × ℚ))
  layoutO : String → ℚ × ℚ

/-- The plotting block: the spring layout `pos` is computed once and passed
to both drawing groups.  `nx.k_core` raises `NetworkXError` (sending the run
into the fallback `except` branch) exactly when the graph has self-loops;
otherwise it returns the possibly-empty `k`-core and the filename embeds the
requested `k`. -/
def plotSection (g : NXGraph) (args : Args) (pos : String → ℚ × ℚ) :
    List String × List PlotFile :=
  let fullF : PlotFile :=
    ⟨args.pfx ++ "_full.png", g.nodes.map (fun p => (p.1, pos p.1))⟩
  let fb := hasSelfLoop g
  let kUsed : Int := if fb then maxCoreInt g else args.k
  let note : List String :=
    if fb then ["[Note] Requested k too high; using max k=" ++ toString kUsed] else []
  let coreF : PlotFile :=
    ⟨args.pfx ++ "_kcore" ++ toString kUsed ++ ".png",
     (kCoreNodes g kUsed).map (fun n => (n, pos n))⟩
  (["Wrote " ++ fullF.name] ++ note ++ ["Wrote " ++ coreF.name], [fullF, coreF])

/-- Observable outcome of one run of `main`. -/
structure RunResult where
  err : Option String
  exitCode : Int
  out : List String
  files : List PlotFile

/-- The whole of `main`: file check and early exit, simplification, report
sections in program order, then the optional plotting block. -/
def runMain (env : Env) (args : Args) : RunResult :=
  if env.fileExists = false then
    { err := some ("ERROR: GraphML not found at " ++ env.resolve args.graphml),
      exitCode := 1, out := [], files := [] }
  else
    let G := simplify env.raw
    let pre := preEigLines G env.closeO env.betO env.prO args.top
    let eigL := eigSection env.eigO args.top
    if args.plot then
      let ps := plotSection G args env.layoutO
      { err := none, exitCode := 0, out := pre ++ eigL ++ ps.1, files := ps.2 }
    else
      { err := none, exitCode := 0, out := pre ++ eigL, files := [] }

/-! ### Concrete fixtures used by witnesses and counterexamples -/

def rawCex : RawGraph :=
  ⟨[("x", []), ("y", [])],
   [("x", "y", [("a", "1")]), ("x", "y", [("b", "2")])]⟩

def rawW2 : List (String × Nat) := [("b", 2), ("a", 2), ("c", 1)]

def rawW9 : List (String × Nat) := [("b", 2), ("a", 3), ("c", 1)]

def envW4 : Env :=
  { fileExists := false, resolve := fun p => "/home/user/" ++ p, raw := ⟨[], []⟩,
    closeO := [], betO := [], prO := [], eigO := .ok [], layoutO := fun _ => (0, 0) }

def argsW4 : Args := ⟨"does_not_exist.graphml", 5, false, 20, 42, "marvel_network", 0⟩

def rawW5 : RawGraph := ⟨[("A", []), ("B", [])], []⟩

def envW5 : Env :=
  { fileExists := true, resolve := id, raw := rawW5,
    closeO := [], betO := [], prO := [],
    eigO := .error "power iteration failed to converge within 1000 iterations",
    layoutO := fun _ => (0, 0) }

def argsW5 : Args := ⟨"marvel-network.graphml", 5, true, 20, 42, "marvel_network", 0⟩

def rawC7 : RawGraph :=
  ⟨[("A", []), ("B", []), ("C", []), ("D", [])],
   [("A", "B", []), ("B", "C", []), ("C", "D", [])]⟩

def rawW8 : RawGraph :=
  ⟨[("A", []), ("B", []), ("C", [])],
   [("A", "B", []), ("B", "C", []), ("C", "A", [])]⟩

def envW8 : Env :=
  { fileExists := true, resolve := id, raw := rawW8,
    closeO := [], betO := [], prO := [], eigO := .ok [],
    layoutO := fun _ => (0, 0) }

def argsW8 : Args := ⟨"marvel-network.graphml", 5, true, 1, 42, "viz", 0⟩

def argsW10 : Args := ⟨"marvel-network.graphml", 5, true, 5, 42, "viz", 0⟩

def argsC3 : Args := ⟨"marvel-network.graphml", 5, true, 5, 42, "marvel_network", 0⟩

def layC3 : String → ℚ × ℚ := fun _ => (0, 0)

/-! ### Order properties of the ranking comparison -/

theorem strLeAux_total : ∀ as bs : List Char, strLeAux as bs = true ∨ strLeAux bs as = true := by
  intro as
  induction as with
  | nil => intro bs; left; rfl
  | cons a as ih =>
      intro bs
      cases bs with
      | nil => right; rfl
      | cons b bs =>
          rcases Nat.lt_trichotomy a.toNat b.toNat with h | h | h
          · left; simp [strLeAux, h]
          · rcases ih bs with h' | h'
            · left; simp [strLeAux, h, h']
            · right; simp [strLeAux, h, h']
          · right; simp [strLeAux, h]

theorem strLeAux_trans :
    ∀ as bs cs : List Char, strLeAux as bs = true → strLeAux bs cs = true →
      strLeAux as cs = true := by
  intro as
  induction as with
  | nil => intro bs cs _ _; rfl
  | cons a as ih =>
      intro bs cs hab hbc
      cases bs with
      | nil => simp [strLeAux] at hab
      | cons b bs =>
          cases cs with
          | nil => simp [strLeAux] at hbc
          | cons c cs =>
              simp only [strLeAux] at hab hbc ⊢
              split_ifs at hab hbc ⊢ with h1 h2 h3 h4 h5 h6 <;>
                first
                | rfl
                | omega
                | exact ih bs cs hab hbc

theorem strLe_total (s t : String) : strLe s t = true ∨ strLe t s = true :=
  strLeAux_total s.data t.data

theorem strLe_trans {s t u : String} (h1 : strLe s t = true) (h2 : strLe t u = true) :
    strLe s u = true :=
  strLeAux_trans s.data t.data u.data h1 h2

theorem rankR_total {α : Type} [LinearOrder α] (a b : String × α) :
    rankR a b ∨ rankR b a := by
  rcases lt_trichotomy a.2 b.2 with h | h | h
  · right; left; exact h
  · rcases strLe_total a.1 b.1 with h' | h'
    · left; right; exact ⟨h, h'⟩
    · right; right; exact ⟨h.symm, h'⟩
  · left; left; exact h

theorem rankR_trans {α : Type} [LinearOrder α] (a b c : String × α)
    (hab : rankR a b) (hbc : rankR b c) : rankR a c := by
  rcases hab with h1 | ⟨h1, h1'⟩ <;> rcases hbc with h2 | ⟨h2, h2'⟩
  · exact Or.inl (h2.trans h1)
  · exact Or.inl (h2 ▸ h1)
  · exact Or.inl (h1 ▸ h2)
  · exact Or.inr ⟨h1.trans h2, strLe_trans h1' h2'⟩

/-! ### Claim C2: `top_n` with a non-negative count -/

/-- Claim C2: for every score mapping (distinct node names) and every
non-negative count `t`, `top_n` returns a list of length `min t N` that is
sorted by strictly descending score, ties broken by strictly ascending node
identifier in the lexicographic string order. -/
theorem c2_top_n_ranking {α : Type} [LinearOrder α] (d : List (String × α)) (t : Int)
    (ht : 0 ≤ t) (hd : (d.map Prod.fst).Nodup) :
    (top_n d t).length = min t.toNat d.length ∧
    (top_n d t).Pairwise
      (fun a b => b.2 < a.2 ∨ (a.2 = b.2 ∧ strLe a.1 b.1 = true ∧ a.1 ≠ b.1)) := by
  haveI : IsTotal (String × α) (rankR (α := α)) := ⟨rankR_total⟩
  haveI : IsTrans (String × α) (rankR (α := α)) := ⟨rankR_trans⟩
  have hperm : (sortedRanking d).Perm d := List.perm_insertionSort _ d
  have hlen : (sortedRanking d).length = d.length := hperm.length_eq
  have htop : top_n d t = (sortedRanking d).take t.toNat := by
    simp [top_n, pySlice, ht]
  constructor
  · rw [htop, List.length_take, hlen]
  · have hs : (sortedRanking d).Pairwise (rankR (α := α)) :=
      List.sorted_insertionSort _ d
    have hnd : ((sortedRanking d).map Prod.fst).Nodup :=
      ((hperm.map Prod.fst).nodup_iff).2 hd
    have hne : (sortedRanking d).Pairwise (fun a b => a.1 ≠ b.1) :=
      List.pairwise_map.1 hnd
    rw [htop]
    refine List.Pairwise.sublist (List.take_sublist _ _) ?_
    refine (hs.and hne).imp ?_
    intro a b h
    rcases h with ⟨h1 | ⟨heq, hle⟩, hne'⟩
    · exact Or.inl h1
    · exact Or.inr ⟨heq, hle, hne'⟩

theorem c2_top_n_ranking_witness :
    (0 : Int) ≤ 2 ∧ (rawW2.map Prod.fst).Nodup ∧
    (top_n rawW2 2).length = min (2 : Int).toNat rawW2.length ∧
    (top_n rawW2 2).Pairwise
      (fun a b => b.2 < a.2 ∨ (a.2 = b.2 ∧ strLe a.1 b.1 = true ∧ a.1 ≠ b.1)) :=
  ⟨by decide, by decide,
   (c2_top_n_ranking rawW2 2 (by decide) (by decide)).1,
   (c2_top_n_ranking rawW2 2 (by decide) (by decide)).2⟩

/-! ### Claim C9: `top_n` with a negative count -/

/-- Claim C9: a negative count `t` does not fail and does not produce
`min t N` entries; Python slicing returns the first `N - |t|` entries of the
full ranking when `|t| < N` and the empty list when `|t| ≥ N`. -/
theorem c9_negative_top {α : Type} [LinearOrder α] (d : List (String × α)) (t : Int)
    (ht : t < 0) :
    ((-t).toNat < d.length →
      top_n d t = (sortedRanking d).take (d.length - (-t).toNat)) ∧
    (d.length ≤ (-t).toNat → top_n d t = []) ∧
    (0 < d.length → ((top_n d t).length : Int) ≠ min t (d.length : Int)) := by
  have hnot : ¬ (0 ≤ t) := by omega
  have hlen : (sortedRanking d).length = d.length :=
    (List.perm_insertionSort _ d).length_eq
  have htop : top_n d t = (sortedRanking d).take ((d.length : Int) + t).toNat := by
    simp [top_n, pySlice, hnot, hlen]
  refine ⟨?_, ?_, ?_⟩
  · intro h
    rw [htop]
    congr 1
    omega
  · intro h
    rw [htop]
    have : ((d.length : Int) + t).toNat = 0 := by omega
    rw [this, List.take_zero]
  · intro hpos
    have hmin : min t (d.length : Int) = t := by omega
    rw [hmin, htop, List.length_take, hlen]
    omega

theorem c9_negative_top_witness :
    (-1 : Int) < 0 ∧
    top_n rawW9 (-1) = (sortedRanking rawW9).take (rawW9.length - ((1 : Int)).toNat) ∧
    top_n rawW9 (-1) = [("a", 3), ("b", 2)] ∧
    top_n rawW9 (-5) = [] :=
  ⟨by decide,
   by
     have h := (c9_negative_top rawW9 (-1) (by decide)).1 (by decide)
     simpa using h,
   by decide, by decide⟩

/-! ### Claim C4: missing input file -/

/-- Claim C4: when the input path does not exist, the run exits with a
non-zero status carrying a single ERROR message that embeds the resolved
path, prints nothing, writes no files, and its outcome does not depend on
the parse result or any later computation. -/
theorem c4_missing_input (env : Env) (args : Args) (h : env.fileExists = false) :
    (runMain env args).exitCode ≠ 0 ∧
    (runMain env args).err =
      some ("ERROR: GraphML not found at " ++ env.resolve args.graphml) ∧
    (∃ s, (runMain env args).err = some (s ++ env.resolve args.graphml)) ∧
    (runMain env args).out = [] ∧ (runMain env args).files = [] ∧
    ∀ raw2 close2 bet2 pr2 eig2 lay2,
      runMain { env with raw := raw2, closeO := close2, betO := bet2,
                         prO := pr2, eigO := eig2, layoutO := lay2 } args =
        runMain env args := by
  refine ⟨?_, ?_, ⟨"ERROR: GraphML not found at ", ?_⟩, ?_, ?_, ?_⟩ <;>
    simp [runMain, h]

theorem c4_missing_input_witness :
    envW4.fileExists = false ∧
    (runMain envW4 argsW4).err =
      some "ERROR: GraphML not found at /home/user/does_not_exist.graphml" ∧
    (runMain envW4 argsW4).exitCode ≠ 0 ∧ (runMain envW4 argsW4).files = [] :=
  ⟨rfl,
   by rw [(c4_missing_input envW4 argsW4 rfl).2.1]; decide,
   (c4_missing_input envW4 argsW4 rfl).1,
   (c4_missing_input envW4 argsW4 rfl).2.2.2.2.1⟩

/-! ### Claim C5: eigenvector-centrality failure is recovered locally -/

/-- Claim C5: when the eigenvector-centrality computation fails with message
`e`, the run does not abort: every section before it is printed unchanged,
the one-line notice embedding `e` replaces the eigenvector section, and
execution continues (the plotting block still runs when requested). -/
theorem c5_eigenvector_recovery (env : Env) (args : Args) (e : String)
    (hf : env.fileExists = true) (he : env.eigO = .error e) :
    (runMain env args).err = none ∧ (runMain env args).exitCode = 0 ∧
    (runMain env args).out =
      preEigLines (simplify env.raw) env.closeO env.betO env.prO args.top ++
        ["\n[Eigenvector centrality skipped: " ++ e ++ "]"] ++
        (if args.plot then (plotSection (simplify env.raw) args env.layoutO).1 else []) ∧
    (runMain env args).files =
      (if args.plot then (plotSection (simplify env.raw) args env.layoutO).2 else []) := by
  by_cases hp : args.plot <;>
    simp [runMain, hf, he, hp, eigSection]

theorem c5_eigenvector_recovery_witness :
    envW5.fileExists = true ∧
    envW5.eigO = Except.error "power iteration failed to converge within 1000 iterations" ∧
    (runMain envW5 argsW5).err = none ∧ (runMain envW5 argsW5).exitCode = 0 :=
  ⟨rfl, rfl,
   (c5_eigenvector_recovery envW5 argsW5 _ rfl rfl).1,
   (c5_eigenvector_recovery envW5 argsW5 _ rfl rfl).2.1⟩

/-! ### Claim C6: the density formula -/

/-- Claim C6: the reported density is `2E / (N(N-1))` (exactly, over ℚ) when
`N ≥ 2` and `0` when `N < 2`, and the report prints it through the 6-decimal
format model. -/
theorem c6_density_formula (g : NXGraph) :
    density g =
      (if 2 ≤ g.nodes.length then
        (2 * (g.edges.length : ℚ)) / ((g.nodes.length : ℚ) * ((g.nodes.length : ℚ) - 1))
      else 0) ∧
    ∀ closeO betO prO top,
      ("Density: " ++ fmt6 (density g)) ∈ preEigLines g closeO betO prO top := by
  constructor
  · unfold density
    split_ifs with h1 h2 h3
    · rcases h1 with hm | hn
      · rw [hm]; norm_num
      · omega
    · rfl
    · rfl
    · exfalso
      rcases Nat.lt_or_ge g.edges.length 1 with hm | hm
      · exact h1 (Or.inl (by omega))
      · omega
  · intro closeO betO prO top
    simp [preEigLines]

/-! ### Claim C7: the concrete 4-node example -/

/-- Claim C7: on the path graph A—B—C—D the reported density is `0.5`, the
connectivity flag is true, and the top-2 degree ranking is exactly
`[B: 2, C: 2]`. -/
theorem c7_example_scenario :
    density (simplify rawC7) = 1 / 2 ∧
    isConnected (simplify rawC7) = true ∧
    top_n (degreesOf (simplify rawC7)) 2 = [("B", 2), ("C", 2)] := by
  refine ⟨?_, by decide, by decide⟩
  have hn : (simplify rawC7).nodes.length = 4 := by decide
  have he : (simplify rawC7).edges.length = 3 := by decide
  rw [density, hn, he]
  norm_num

/-! ### Claim C8: the layout is computed once and shared by both plots -/

/-- Claim C8: when plotting runs, exactly two files are produced, the node
positions of each are the single layout's values, and every node appearing
in both images has identical coordinates. -/
theorem c8_layout_reuse (env : Env) (args : Args)
    (hf : env.fileExists = true) (hp : args.plot = true) :
    (runMain env args).files.length = 2 ∧
    (∀ n p, (n, p) ∈ ((runMain env args).files.getD 0 noFile).nodePos →
      p = env.layoutO n) ∧
    (∀ n p, (n, p) ∈ ((runMain env args).files.getD 1 noFile).nodePos →
      p = env.layoutO n) ∧
    (∀ n p q, (n, p) ∈ ((runMain env args).files.getD 0 noFile).nodePos →
      (n, q) ∈ ((runMain env args).files.getD 1 noFile).nodePos → p = q) := by
  have hfiles : (runMain env args).files =
      (plotSection (simplify env.raw) args env.layoutO).2 := by
    simp [runMain, hf, hp]
  have h0 : ∀ n p, (n, p) ∈ ((runMain env args).files.getD 0 noFile).nodePos →
      p = env.layoutO n := by
    intro n p hmem
    rw [hfiles] at hmem
    simp only [plotSection, List.getD_cons_zero, List.mem_map] at hmem
    obtain ⟨q, _, hq⟩ := hmem
    obtain ⟨h1, h2⟩ := Prod.mk.injEq .. ▸ hq
    rw [← h2, h1]
  have h1 : ∀ n p, (n, p) ∈ ((runMain env args).files.getD 1 noFile).nodePos →
      p = env.layoutO n := by
    intro n p hmem
    rw [hfiles] at hmem
    simp only [plotSection, List.getD_cons_succ, List.getD_cons_zero,
      List.mem_map] at hmem
    obtain ⟨q, _, hq⟩ := hmem
    obtain ⟨h1, h2⟩ := Prod.mk.injEq .. ▸ hq
    rw [← h2, h1]
  refine ⟨by rw [hfiles]; simp [plotSection], h0, h1, ?_⟩
  intro n p q hp0 hq1
  rw [h0 n p hp0, h1 n q hq1]

theorem c8_layout_reuse_witness :
    ("A", ((0 : ℚ), (0 : ℚ))) ∈ ((runMain envW8 argsW8).files.getD 0 noFile).nodePos ∧
    ("A", ((0 : ℚ), (0 : ℚ))) ∈ ((runMain envW8 argsW8).files.getD 1 noFile).nodePos ∧
    ((0 : ℚ), (0 : ℚ)) = ((0 : ℚ), (0 : ℚ)) :=
  ⟨by decide, by decide,
   (c8_layout_reuse envW8 argsW8 rfl rfl).2.2.2 "A" _ _ (by decide) (by decide)⟩

/-! ### Unordered-pair and edge-list plumbing lemmas -/

theorem sameUPair_refl (u v : String) : sameUPair u v u v = true := by
  simp [sameUPair]

theorem sameUPair_congr {u v x y : String} (h : sameUPair u v x y = true)
    (a b : String) : sameUPair a b x y = sameUPair a b u v := by
  simp only [sameUPair, decide_eq_true_eq] at h
  rcases h with ⟨rfl, rfl⟩ | ⟨rfl, rfl⟩
  · rfl
  · simp only [sameUPair]
    rw [decide_eq_decide]
    tauto

theorem sameUPair_trans {a b u v x y : String} (h1 : sameUPair a b u v = true)
    (h2 : sameUPair a b x y = true) : sameUPair u v x y = true := by
  simp only [sameUPair, decide_eq_true_eq] at h1 h2 ⊢
  rcases h1 with ⟨rfl, rfl⟩ | ⟨rfl, rfl⟩ <;> tauto

theorem edges_addNodeIfAbsent (g : NXGraph) (n : String) :
    (addNodeIfAbsent g n).edges = g.edges := by
  unfold addNodeIfAbsent
  split <;> rfl

theorem edges_addEdge (g : NXGraph) (u v : String) (d : Attrs) :
    (addEdge g u v d).edges = addEdgeEdges g.edges u v d := by
  show addEdgeEdges ((addNodeIfAbsent (addNodeIfAbsent g u) v).edges) u v d = _
  rw [edges_addNodeIfAbsent, edges_addNodeIfAbsent]

theorem edges_addNodeWith (g : NXGraph) (n : String) (a : Attrs) :
    (addNodeWith g n a).edges = g.edges := by
  unfold addNodeWith
  split <;> rfl

theorem edges_addNodesFrom (g : NXGraph) (l : List (String × Attrs)) :
    (addNodesFrom g l).edges = g.edges := by
  induction l generalizing g with
  | nil => rfl
  | cons p l ih =>
      exact (ih (addNodeWith g p.1 p.2)).trans (edges_addNodeWith g p.1 p.2)

/-- Effect of one `add_edge` on the stored attribute dict of any unordered
pair: the matching pair receives the dict update, every other pair is
untouched. -/
theorem edgeAttrsIn_addEdgeEdges (es : List Edge) (u v x y : String) (d : Attrs) :
    edgeAttrsIn (addEdgeEdges es u v d) x y =
      if sameUPair u v x y = true then
        some (dictUpdate ((edgeAttrsIn es x y).getD []) d)
      else edgeAttrsIn es x y := by
  unfold addEdgeEdges
  rcases hf : es.find? (fun e => sameUPair e.1 e.2.1 u v) with _ | e0
  · by_cases hxy : sameUPair u v x y = true
    · have hpred : (fun e : Edge => sameUPair e.1 e.2.1 x y) =
          (fun e : Edge => sameUPair e.1 e.2.1 u v) :=
        funext fun e => sameUPair_congr hxy e.1 e.2.1
      rw [if_pos hxy]
      unfold edgeAttrsIn
      simp only [hf]
      rw [hpred, List.find?_append, hf]
      rw [List.find?_cons_of_pos _ (by exact sameUPair_refl u v)]
      rfl
    · rw [if_neg hxy]
      unfold edgeAttrsIn
      simp only [hf]
      rw [List.find?_append]
      have hone : List.find? (fun e : Edge => sameUPair e.1 e.2.1 x y)
          [(u, v, dictUpdate [] d)] = none := by
        rw [List.find?_cons_of_neg _ (by exact hxy)]
        rfl
      rw [hone, Option.or_none]
  · have hup : ((fun e : Edge => sameUPair e.1 e.2.1 x y) ∘
        (fun e : Edge =>
          if sameUPair e.1 e.2.1 u v then (e.1, e.2.1, dictUpdate e.2.2 d) else e)) =
        (fun e : Edge => sameUPair e.1 e.2.1 x y) := by
      funext e
      by_cases h : sameUPair e.1 e.2.1 u v = true <;> simp [h]
    unfold edgeAttrsIn
    simp only [hf]
    rw [List.find?_map, hup]
    by_cases hxy : sameUPair u v x y = true
    · rw [if_pos hxy]
      have hpred : (fun e : Edge => sameUPair e.1 e.2.1 x y) =
          (fun e : Edge => sameUPair e.1 e.2.1 u v) :=
        funext fun e => sameUPair_congr hxy e.1 e.2.1
      rw [hpred, hf]
      have he0 : sameUPair e0.1 e0.2.1 u v = true := by
        have := List.find?_some hf
        simpa using this
      simp [he0]
    · rw [if_neg hxy]
      rcases hg : es.find? (fun e => sameUPair e.1 e.2.1 x y) with _ | e1
      · rw [hg]
        rfl
      · have he1 : sameUPair e1.1 e1.2.1 x y = true := by
          have := List.find?_some hg
          simpa using this
        have hne : ¬ sameUPair e1.1 e1.2.1 u v = true := by
          intro hcon
          exact hxy (sameUPair_trans hcon he1)
        rw [hg]
        simp [hne]

theorem edgeAttrLookup_addEdge (g : NXGraph) (u v x y : String) (d : Attrs) :
    edgeAttrLookup (addEdge g u v d) x y =
      if sameUPair u v x y = true then
        some (dictUpdate ((edgeAttrLookup g x y).getD []) d)
      else edgeAttrLookup g x y := by
  unfold edgeAttrLookup
  rw [edges_addEdge]
  exact edgeAttrsIn_addEdgeEdges g.edges u v x y d

/-- The simplification loop, viewed on one unordered pair: the final
attribute dict is the fold of dict updates over the raw insertions for that
pair. -/
theorem edgeAttrLookup_foldEdges (es : List Edge) (g : NXGraph) (x y : String) :
    edgeAttrLookup (foldEdges g es) x y =
      (relAttrs es x y).foldl optStep (edgeAttrLookup g x y) := by
  induction es generalizing g with
  | nil => rfl
  | cons e es ih =>
      show edgeAttrLookup (foldEdges (simplifyStep g e) es) x y = _
      rw [ih]
      by_cases hloop : e.1 = e.2.1
      · have h1 : simplifyStep g e = g := by
          simp [simplifyStep, hloop]
        have h2 : relAttrs (e :: es) x y = relAttrs es x y := by
          simp [relAttrs, List.filter_cons, hloop]
        rw [h1, h2]
      · have h1 : simplifyStep g e = addEdge g e.1 e.2.1 e.2.2 := by
          simp [simplifyStep, hloop]
        rw [h1]
        have hlook := edgeAttrLookup_addEdge g e.1 e.2.1 x y e.2.2
        by_cases hm : sameUPair e.1 e.2.1 x y = true
        · have h2 : relAttrs (e :: es) x y = e.2.2 :: relAttrs es x y := by
            simp [relAttrs, List.filter_cons, hloop, hm]
          rw [hlook, if_pos hm, h2]
          rfl
        · have h2 : relAttrs (e :: es) x y = relAttrs es x y := by
            simp [relAttrs, List.filter_cons, hm]
          rw [hlook, if_neg hm, h2]

theorem foldl_optStep_some (l : List Attrs) (b : Attrs) :
    l.foldl optStep (some b) = some (l.foldl dictUpdate b) := by
  induction l generalizing b with
  | nil => rfl
  | cons a l ih =>
      show l.foldl optStep (optStep (some b) a) = _
      rw [show optStep (some b) a = some (dictUpdate b a) from rfl, ih]
      rfl

theorem edgeAttrLookup_simplify (raw : RawGraph) (x y : String) :
    edgeAttrLookup (simplify raw) x y =
      (relAttrs raw.edges x y).foldl optStep none := by
  unfold simplify
  rw [edgeAttrLookup_foldEdges]
  have hbase : edgeAttrLookup (addNodesFrom emptyGraph raw.nodes) x y = none := by
    unfold edgeAttrLookup
    rw [edges_addNodesFrom]
    rfl
  rw [hbase]

/-! ### Structural invariants of the simplified graph -/

theorem noLoops_addEdgeEdges {es : List Edge} {u v : String} {d : Attrs}
    (h : ∀ e ∈ es, e.1 ≠ e.2.1) (huv : u ≠ v) :
    ∀ e ∈ addEdgeEdges es u v d, e.1 ≠ e.2.1 := by
  unfold addEdgeEdges
  rcases hf : es.find? (fun e => sameUPair e.1 e.2.1 u v) with _ | e0
  · simp only [hf]
    intro e he
    rcases List.mem_append.1 he with h1 | h1
    · exact h e h1
    · rcases List.mem_singleton.1 h1 with rfl
      exact huv
  · simp only [hf]
    intro e he
    rcases List.mem_map.1 he with ⟨e1, he1, rfl⟩
    by_cases hb : sameUPair e1.1 e1.2.1 u v = true
    · simpa [hb] using h e1 he1
    · simpa [hb] using h e1 he1

theorem noLoops_foldEdges (es : List Edge) (g : NXGraph)
    (h : ∀ e ∈ g.edges, e.1 ≠ e.2.1) :
    ∀ e ∈ (foldEdges g es).edges, e.1 ≠ e.2.1 := by
  induction es generalizing g with
  | nil => exact h
  | cons e es ih =>
      show ∀ e' ∈ (foldEdges (simplifyStep g e) es).edges, e'.1 ≠ e'.2.1
      apply ih
      unfold simplifyStep
      split
      · rw [edges_addEdge]
        exact noLoops_addEdgeEdges h (by assumption)
      · exact h

theorem noLoops_simplify (raw : RawGraph) :
    ∀ e ∈ (simplify raw).edges, e.1 ≠ e.2.1 := by
  unfold simplify
  apply noLoops_foldEdges
  rw [edges_addNodesFrom]
  intro e he
  cases he

theorem hasSelfLoop_simplify (raw : RawGraph) :
    hasSelfLoop (simplify raw) = false := by
  have h := noLoops_simplify raw
  unfold hasSelfLoop
  rw [List.any_eq_false]
  intro e he
  simpa using h e he

theorem pairwiseDistinct_addEdgeEdges {es : List Edge} {u v : String} {d : Attrs}
    (h : es.Pairwise (fun e1 e2 => sameUPair e1.1 e1.2.1 e2.1 e2.2.1 = false)) :
    (addEdgeEdges es u v d).Pairwise
      (fun e1 e2 => sameUPair e1.1 e1.2.1 e2.1 e2.2.1 = false) := by
  unfold addEdgeEdges
  rcases hf : es.find? (fun e => sameUPair e.1 e.2.1 u v) with _ | e0
  · simp only [hf]
    rw [List.pairwise_append]
    refine ⟨h, List.pairwise_singleton _ _, ?_⟩
    intro e1 he1 e2 he2
    rcases List.mem_singleton.1 he2 with rfl
    have := List.find?_eq_none.1 hf e1 he1
    simpa using this
  · have hcomp : ∀ e : Edge,
        ((if sameUPair e.1 e.2.1 u v then (e.1, e.2.1, dictUpdate e.2.2 d) else e) : Edge).1
          = e.1 ∧
        ((if sameUPair e.1 e.2.1 u v then (e.1, e.2.1, dictUpdate e.2.2 d) else e) : Edge).2.1
          = e.2.1 := by
      intro e
      by_cases hb : sameUPair e.1 e.2.1 u v = true <;> simp [hb]
    simp only [hf]
    refine List.pairwise_map.2 (h.imp ?_)
    intro e1 e2 h12
    rw [(hcomp e1).1, (hcomp e1).2, (hcomp e2).1, (hcomp e2).2]
    exact h12

theorem pairwiseDistinct_foldEdges (es : List Edge) (g : NXGraph)
    (h : g.edges.Pairwise (fun e1 e2 => sameUPair e1.1 e1.2.1 e2.1 e2.2.1 = false)) :
    (foldEdges g es).edges.Pairwise
      (fun e1 e2 => sameUPair e1.1 e1.2.1 e2.1 e2.2.1 = false) := by
  induction es generalizing g with
  | nil => exact h
  | cons e es ih =>
      show (foldEdges (simplifyStep g e) es).edges.Pairwise _
      apply ih
      unfold simplifyStep
      split
      · rw [edges_addEdge]
        exact pairwiseDistinct_addEdgeEdges h
      · exact h

theorem pairwiseDistinct_simplify (raw : RawGraph) :
    (simplify raw).edges.Pairwise
      (fun e1 e2 => sameUPair e1.1 e1.2.1 e2.1 e2.2.1 = false) := by
  unfold simplify
  apply pairwiseDistinct_foldEdges
  rw [edges_addNodesFrom]
  exact List.Pairwise.nil

theorem lookupNode_addNodeIfAbsent {g : NXGraph} {n : String} {a : Attrs}
    (m : String) (h : lookupNode g n = some a) :
    lookupNode (addNodeIfAbsent g m) n = some a := by
  unfold addNodeIfAbsent
  split
  · exact h
  · unfold lookupNode at h ⊢
    rcases Option.map_eq_some'.1 h with ⟨q, hq, rfl⟩
    simp only [List.find?_append, hq]
    rfl

theorem lookupNode_addEdge {g : NXGraph} {n : String} {a : Attrs}
    (u v : String) (d : Attrs) (h : lookupNode g n = some a) :
    lookupNode (addEdge g u v d) n = some a := by
  show lookupNode (addNodeIfAbsent (addNodeIfAbsent g u) v) n = some a
  exact lookupNode_addNodeIfAbsent v (lookupNode_addNodeIfAbsent u h)

theorem lookupNode_foldEdges {es : List Edge} {g : NXGraph} {n : String} {a : Attrs}
    (h : lookupNode g n = some a) :
    lookupNode (foldEdges g es) n = some a := by
  induction es generalizing g with
  | nil => exact h
  | cons e es ih =>
      show lookupNode (foldEdges (simplifyStep g e) es) n = some a
      apply ih
      unfold simplifyStep
      split
      · exact lookupNode_addEdge _ _ _ h
      · exact h

theorem find?_nodupKeys {l : List (String × Attrs)} {p : String × Attrs}
    (h : (l.map Prod.fst).Nodup) (hp : p ∈ l) :
    l.find? (fun q => q.1 == p.1) = some p := by
  induction l with
  | nil => cases hp
  | cons q l ih =>
      rcases List.mem_cons.1 hp with rfl | hp'
      · exact List.find?_cons_of_pos _ (by simp)
      · have h' := h
        rw [List.map_cons] at h'
        have hnd := List.nodup_cons.1 h'
        have hq : q.1 ≠ p.1 := by
          intro hcon
          exact hnd.1 (hcon ▸ List.mem_map_of_mem Prod.fst hp')
        rw [List.find?_cons_of_neg _ (by simp [hq])]
        exact ih hnd.2 hp'

theorem nodes_addNodesFrom (g : NXGraph) (ns : List (String × Attrs))
    (hdisj : ∀ p ∈ ns, ∀ q ∈ g.nodes, q.1 ≠ p.1)
    (hnd : (ns.map Prod.fst).Nodup) :
    (addNodesFrom g ns).nodes = g.nodes ++ ns := by
  induction ns generalizing g with
  | nil => simp [addNodesFrom]
  | cons p ns ih =>
      have hany : g.nodes.any (fun q => q.1 == p.1) = false := by
        rw [List.any_eq_false]
        intro q hq
        simp [hdisj p (List.mem_cons_self p ns) q hq]
      have hnw : addNodeWith g p.1 p.2 = { g with nodes := g.nodes ++ [(p.1, p.2)] } := by
        unfold addNodeWith
        rw [hany]
        simp
      have hcons := hnd
      rw [List.map_cons] at hcons
      have hnd' := List.nodup_cons.1 hcons
      show (addNodesFrom (addNodeWith g p.1 p.2) ns).nodes = g.nodes ++ p :: ns
      rw [hnw, ih]
      · simp
      · intro r hr q hq
        rcases List.mem_append.1 hq with hq' | hq'
        · exact hdisj r (List.mem_cons_of_mem p hr) q hq'
        · rcases List.mem_singleton.1 hq' with rfl
          intro hcon
          exact hnd'.1 (hcon ▸ List.mem_map_of_mem Prod.fst hr)
      · exact hnd'.2

theorem lookupNode_simplify (raw : RawGraph)
    (hnd : (raw.nodes.map Prod.fst).Nodup) :
    ∀ p ∈ raw.nodes, lookupNode (simplify raw) p.1 = some p.2 := by
  intro p hp
  unfold simplify
  apply lookupNode_foldEdges
  unfold lookupNode
  have hbase : (addNodesFrom emptyGraph raw.nodes).nodes = raw.nodes := by
    have := nodes_addNodesFrom emptyGraph raw.nodes
      (by intro r _ q hq; cases hq) hnd
    simpa [emptyGraph] using this
  rw [hbase, find?_nodupKeys hnd hp]
  rfl

/-! ### Claim C1: what simplification preserves, drops and merges -/

/-- Claim C1's counterexample: for two parallel raw insertions of the edge
x—y carrying `{a: 1}` and then `{b: 2}`, the simplified edge keeps the key
`a` of the earlier insertion: the later attributes do NOT plainly overwrite
the earlier dict; `add_edge` merges key-wise. -/
theorem c1_overwrite_counterexample :
    (rawCex.edges.map (fun e => e.2.2)).getLast? = some [("b", "2")] ∧
    edgeAttrLookup (simplify rawCex) "x" "y" = some [("a", "1"), ("b", "2")] ∧
    edgeAttrLookup (simplify rawCex) "x" "y" ≠ some [("b", "2")] ∧
    attrLookup ((edgeAttrLookup (simplify rawCex) "x" "y").getD []) "a" = some "1" := by
  refine ⟨by decide, by decide, by decide, by decide⟩

/-- Claim C1 as amended: the simplified graph keeps every raw node with its
attributes, drops every self-loop, holds at most one edge per unordered pair,
and the attribute dict of each kept edge is the key-wise dict-update fold of
all raw insertions for that pair, in insertion order — later values win per
key, earlier keys without a later write survive. -/
theorem c1_simplify_amended (raw : RawGraph)
    (hnd : (raw.nodes.map Prod.fst).Nodup) :
    (∀ p ∈ raw.nodes, lookupNode (simplify raw) p.1 = some p.2) ∧
    hasSelfLoop (simplify raw) = false ∧
    (simplify raw).edges.Pairwise
      (fun e1 e2 => sameUPair e1.1 e1.2.1 e2.1 e2.2.1 = false) ∧
    (∀ x y, relAttrs raw.edges x y = [] →
      edgeAttrLookup (simplify raw) x y = none) ∧
    (∀ x y, relAttrs raw.edges x y ≠ [] →
      edgeAttrLookup (simplify raw) x y =
        some ((relAttrs raw.edges x y).foldl dictUpdate [])) := by
  refine ⟨lookupNode_simplify raw hnd, hasSelfLoop_simplify raw,
    pairwiseDistinct_simplify raw, ?_, ?_⟩
  · intro x y hempty
    rw [edgeAttrLookup_simplify, hempty]
    rfl
  · intro x y hne
    rw [edgeAttrLookup_simplify]
    rcases hl : relAttrs raw.edges x y with _ | ⟨a, l⟩
    · exact absurd hl hne
    · show (a :: l).foldl optStep none = _
      rw [List.foldl_cons, show optStep none a = some (dictUpdate [] a) from rfl,
        foldl_optStep_some]
      rfl

theorem c1_simplify_amended_witness :
    (rawCex.nodes.map Prod.fst).Nodup ∧
    lookupNode (simplify rawCex) "x" = some [] ∧
    hasSelfLoop (simplify rawCex) = false ∧
    relAttrs rawCex.edges "x" "y" ≠ [] ∧
    edgeAttrLookup (simplify rawCex) "x" "y" =
      some ((relAttrs rawCex.edges "x" "y").foldl dictUpdate []) :=
  ⟨by decide,
   (c1_simplify_amended rawCex (by decide)).1 ("x", []) (by decide),
   (c1_simplify_amended rawCex (by decide)).2.1,
   by decide,
   (c1_simplify_amended rawCex (by decide)).2.2.2.2 "x" "y" (by decide)⟩

/-! ### Node-name uniqueness of the simplified graph -/

theorem nodupNames_addNodeIfAbsent (g : NXGraph) (n : String)
    (h : (g.nodes.map Prod.fst).Nodup) :
    ((addNodeIfAbsent g n).nodes.map Prod.fst).Nodup := by
  unfold addNodeIfAbsent
  split_ifs with hc
  · exact h
  · have hnotin : n ∉ g.nodes.map Prod.fst := by
      intro hcon
      rcases List.mem_map.1 hcon with ⟨p, hp, rfl⟩
      exact hc (List.any_eq_true.2 ⟨p, hp, by simp⟩)
    rw [List.map_append]
    simp only [List.map_cons, List.map_nil]
    refine List.Nodup.append h (List.nodup_singleton n) ?_
    rw [List.disjoint_singleton]
    exact hnotin

theorem nodupNames_addEdge (g : NXGraph) (u v : String) (d : Attrs)
    (h : (g.nodes.map Prod.fst).Nodup) :
    ((addEdge g u v d).nodes.map Prod.fst).Nodup := by
  show (((addNodeIfAbsent (addNodeIfAbsent g u) v).nodes).map Prod.fst).Nodup
  exact nodupNames_addNodeIfAbsent _ v (nodupNames_addNodeIfAbsent _ u h)

theorem nodupNames_foldEdges (es : List Edge) (g : NXGraph)
    (h : (g.nodes.map Prod.fst).Nodup) :
    ((foldEdges g es).nodes.map Prod.fst).Nodup := by
  induction es generalizing g with
  | nil => exact h
  | cons e es ih =>
      show ((foldEdges (simplifyStep g e) es).nodes.map Prod.fst).Nodup
      apply ih
      unfold simplifyStep
      split
      · exact nodupNames_addEdge _ _ _ _ h
      · exact h

theorem nodupNames_simplify (raw : RawGraph)
    (hnd : (raw.nodes.map Prod.fst).Nodup) :
    ((simplify raw).nodes.map Prod.fst).Nodup := by
  unfold simplify
  apply nodupNames_foldEdges
  have hbase : (addNodesFrom emptyGraph raw.nodes).nodes = raw.nodes := by
    have := nodes_addNodesFrom emptyGraph raw.nodes
      (by intro r _ q hq; cases hq) hnd
    simpa [emptyGraph] using this
  rw [hbase]
  exact hnd

/-! ### k-core peeling lemmas -/

/-- In a loop-free graph with at most one edge per unordered pair, the degree
of `u` inside a duplicate-free node set `s` containing `u` is below `|s|`. -/
theorem degIn_lt_length {g : NXGraph} {s : List String} {u : String}
    (hu : u ∈ s)
    (hnl : ∀ e ∈ g.edges, e.1 ≠ e.2.1)
    (hpd : g.edges.Pairwise (fun e1 e2 => sameUPair e1.1 e1.2.1 e2.1 e2.2.1 = false)) :
    degIn g s u < s.length := by
  classical
  have hdeg : degIn g s u =
      (g.edges.filter (fun e =>
        decide ((e.1 = u ∧ e.2.1 ∈ s) ∨ (e.2.1 = u ∧ e.1 ∈ s)))).length := rfl
  set l := g.edges.filter (fun e =>
      decide ((e.1 = u ∧ e.2.1 ∈ s) ∨ (e.2.1 = u ∧ e.1 ∈ s))) with hl
  set other : Edge → String := fun e => if e.1 = u then e.2.1 else e.1 with hother
  have hsubl : l.Sublist g.edges := List.filter_sublist _
  have hprop : ∀ e ∈ l, (e.1 = u ∧ e.2.1 ∈ s) ∨ (e.2.1 = u ∧ e.1 ∈ s) := by
    intro e he
    have := (List.mem_filter.1 he).2
    simpa using this
  have hform : ∀ e ∈ l, (e.1 = u ∧ e.2.1 = other e ∧ other e ∈ s ∧ other e ≠ u) ∨
      (e.1 = other e ∧ e.2.1 = u ∧ other e ∈ s ∧ other e ≠ u) := by
    intro e he
    have hne := hnl e (hsubl.subset he)
    rcases hprop e he with ⟨h1, h2⟩ | ⟨h1, h2⟩
    · left
      refine ⟨h1, by simp [hother, h1], by simpa [hother, h1] using h2, ?_⟩
      simp only [hother, h1, if_pos rfl]
      intro hcon
      exact hne (h1.trans hcon.symm)
    · have h1' : e.1 ≠ u := fun hcon => hne (hcon.trans h1.symm)
      right
      refine ⟨by simp [hother, h1'], h1, by simpa [hother, h1'] using h2, ?_⟩
      simp only [hother, if_neg h1']
      exact h1'
  have hpw : l.Pairwise (fun e1 e2 => other e1 ≠ other e2) := by
    refine List.Pairwise.imp_of_mem ?_ (hpd.sublist hsubl)
    intro e1 e2 h1mem h2mem hR hcon
    have hT : sameUPair e1.1 e1.2.1 e2.1 e2.2.1 = true := by
      simp only [sameUPair, decide_eq_true_eq]
      rcases hform e1 h1mem with ⟨ha1, ha2, _, _⟩ | ⟨ha1, ha2, _, _⟩ <;>
        rcases hform e2 h2mem with ⟨hb1, hb2, _, _⟩ | ⟨hb1, hb2, _, _⟩
      · exact Or.inl ⟨ha1.trans hb1.symm, ha2.trans (hcon.trans hb2.symm)⟩
      · exact Or.inr ⟨ha1.trans hb2.symm, ha2.trans (hcon.trans hb1.symm)⟩
      · exact Or.inr ⟨ha1.trans (hcon.trans hb2.symm), ha2.trans hb1.symm⟩
      · exact Or.inl ⟨ha1.trans (hcon.trans hb1.symm), ha2.trans hb2.symm⟩
    rw [hR] at hT
    cases hT
  have hnd2 : (l.map other).Nodup := List.pairwise_map.2 hpw
  have hsub2 : l.map other ⊆ s.erase u := by
    intro w hw
    rcases List.mem_map.1 hw with ⟨e, he, rfl⟩
    have hin : other e ∈ s ∧ other e ≠ u := by
      rcases hform e he with ⟨_, _, h3, h4⟩ | ⟨_, _, h3, h4⟩ <;> exact ⟨h3, h4⟩
    exact (List.mem_erase_of_ne hin.2).2 hin.1
  have hle : (l.map other).length ≤ (s.erase u).length :=
    (List.subperm_of_subset hnd2 hsub2).length_le
  have herase : (s.erase u).length = s.length - 1 := List.length_erase_of_mem hu
  have hpos : 0 < s.length := List.length_pos_of_mem hu
  rw [hdeg, ← List.length_map l other]
  omega

theorem peel_eq_nil {g : NXGraph} {s : List String} {k : Int}
    (hlen : (s.length : Int) ≤ k)
    (hnl : ∀ e ∈ g.edges, e.1 ≠ e.2.1)
    (hpd : g.edges.Pairwise (fun e1 e2 => sameUPair e1.1 e1.2.1 e2.1 e2.2.1 = false)) :
    peel g k s = [] := by
  unfold peel
  rw [List.filter_eq_nil_iff]
  intro u hu
  have hlt := degIn_lt_length hu hnl hpd
  simp only [decide_eq_true_eq]
  omega

theorem peelIter_nil (g : NXGraph) (k : Int) (m : Nat) : peelIter g k m [] = [] := by
  cases m with
  | zero => rfl
  | succ m =>
      show (if (peel g k []).length = ([] : List String).length then ([] : List String)
            else peelIter g k m (peel g k [])) = []
      simp [peel]

theorem kCoreNodes_empty_of_len_lt {g : NXGraph} {k : Int}
    (hnl : ∀ e ∈ g.edges, e.1 ≠ e.2.1)
    (hpd : g.edges.Pairwise (fun e1 e2 => sameUPair e1.1 e1.2.1 e2.1 e2.2.1 = false))
    (hk : (g.nodes.length : Int) < k) :
    kCoreNodes g k = [] := by
  unfold kCoreNodes
  rcases hn : g.nodes.length with _ | m
  · have hnil : g.nodes.map Prod.fst = [] := by
      rw [List.map_eq_nil_iff, ← List.length_eq_zero, hn]
    rw [hnil]
    rfl
  · have hS : (g.nodes.map Prod.fst).length = m + 1 := by
      rw [List.length_map, hn]
    have hpeel : peel g k (g.nodes.map Prod.fst) = [] := by
      refine peel_eq_nil ?_ hnl hpd
      rw [hS]
      omega
    show (if (peel g k (g.nodes.map Prod.fst)).length = (g.nodes.map Prod.fst).length
          then g.nodes.map Prod.fst
          else peelIter g k m (peel g k (g.nodes.map Prod.fst))) = []
    rw [hpeel, hS]
    simp [peelIter_nil]

theorem foldr_max_le_of_mem {l : List Nat} {a : Nat} (h : a ∈ l) :
    a ≤ l.foldr Nat.max 0 := by
  induction l with
  | nil => cases h
  | cons b l ih =>
      rcases List.mem_cons.1 h with rfl | h'
      · exact Nat.le_max_left _ _
      · exact le_trans (ih h') (Nat.le_max_right _ _)

/-- The `k`-core is empty for every `k` above the graph's maximum core
number. -/
theorem kCoreNodes_empty_of_gt_maxCore (g : NXGraph) {k : Int}
    (hnl : ∀ e ∈ g.edges, e.1 ≠ e.2.1)
    (hpd : g.edges.Pairwise (fun e1 e2 => sameUPair e1.1 e1.2.1 e2.1 e2.2.1 = false))
    (hk : maxCoreInt g < k) :
    kCoreNodes g k = [] := by
  rcases le_or_lt k (g.nodes.length : Int) with hle | hgt
  · by_contra hne
    have hk0 : (0 : Int) ≤ k := by
      have : (0 : Int) ≤ maxCoreInt g := Int.natCast_nonneg _
      omega
    have hjk : ((k.toNat : Nat) : Int) = k := Int.toNat_of_nonneg hk0
    have hmem : k.toNat ∈ (List.range (g.nodes.length + 1)).filter (coreNonempty g) := by
      rw [List.mem_filter]
      refine ⟨List.mem_range.2 (by omega), ?_⟩
      unfold coreNonempty
      rw [hjk]
      rcases hcase : kCoreNodes g k with _ | ⟨a, l⟩
      · exact absurd hcase hne
      · rfl
    have hle2 : k.toNat ≤ maxCoreNat g := foldr_max_le_of_mem hmem
    unfold maxCoreInt at hk
    omega
  · exact kCoreNodes_empty_of_len_lt hnl hpd hgt

/-! ### Claim C10: the k-core fallback handler is dead code -/

/-- Claim C10: the simplified graph never has self-loops, so the `k_core`
call never raises the `NetworkXError` the fallback handler catches.  When
the requested `k` exceeds the graph's maximum core number the extraction
returns an empty subgraph: the run draws an empty k-core plot, prints no
fallback notice, and names the output file with the originally requested
`k`. -/
theorem c10_fallback_unreachable (env : Env) (args : Args)
    (hf : env.fileExists = true) (hp : args.plot = true)
    (hk : maxCoreInt (simplify env.raw) < args.k) :
    hasSelfLoop (simplify env.raw) = false ∧
    (runMain env args).out =
      preEigLines (simplify env.raw) env.closeO env.betO env.prO args.top ++
        eigSection env.eigO args.top ++
        ["Wrote " ++ (args.pfx ++ "_full.png"),
         "Wrote " ++ (args.pfx ++ "_kcore" ++ toString args.k ++ ".png")] ∧
    ((runMain env args).files.getD 1 noFile).name =
      args.pfx ++ "_kcore" ++ toString args.k ++ ".png" ∧
    ((runMain env args).files.getD 1 noFile).nodePos = [] := by
  have h1 := hasSelfLoop_simplify env.raw
  have hcore : kCoreNodes (simplify env.raw) args.k = [] :=
    kCoreNodes_empty_of_gt_maxCore (simplify env.raw)
      (noLoops_simplify env.raw) (pairwiseDistinct_simplify env.raw) hk
  have hps1 : (plotSection (simplify env.raw) args env.layoutO).1 =
      ["Wrote " ++ (args.pfx ++ "_full.png"),
       "Wrote " ++ (args.pfx ++ "_kcore" ++ toString args.k ++ ".png")] := by
    simp [plotSection, h1]
  have hps2 : ((plotSection (simplify env.raw) args env.layoutO).2.getD 1 noFile).name =
        args.pfx ++ "_kcore" ++ toString args.k ++ ".png" ∧
      ((plotSection (simplify env.raw) args env.layoutO).2.getD 1 noFile).nodePos = [] := by
    constructor <;> simp [plotSection, h1, hcore]
  have hout : (runMain env args).out =
      preEigLines (simplify env.raw) env.closeO env.betO env.prO args.top ++
        eigSection env.eigO args.top ++
        (plotSection (simplify env.raw) args env.layoutO).1 := by
    simp [runMain, hf, hp]
  have hfiles : (runMain env args).files =
      (plotSection (simplify env.raw) args env.layoutO).2 := by
    simp [runMain, hf, hp]
  refine ⟨h1, ?_, ?_, ?_⟩
  · rw [hout, hps1]
  · rw [hfiles]
    exact hps2.1
  · rw [hfiles]
    exact hps2.2

theorem c10_fallback_unreachable_witness :
    maxCoreInt (simplify envW8.raw) < argsW10.k ∧
    hasSelfLoop (simplify envW8.raw) = false ∧
    ((runMain envW8 argsW10).files.getD 1 noFile).name = "viz_kcore5.png" ∧
    ((runMain envW8 argsW10).files.getD 1 noFile).nodePos = [] :=
  ⟨by decide,
   (c10_fallback_unreachable envW8 argsW10 rfl rfl (by decide)).1,
   by
     rw [(c10_fallback_unreachable envW8 argsW10 rfl rfl (by decide)).2.2.1]
     decide,
   (c10_fallback_unreachable envW8 argsW10 rfl rfl (by decide)).2.2.2⟩

/-! ### Claim C3: evaluating the k-core request path at a failing input -/

/-- Claim C3 concerns the intended fallback for a too-large `k`.  On the
path graph A—B—C—D (maximum core number 1) with requested `k = 5`, the code
prints no fallback notice, draws an empty k-core, and names the file with
the requested `k = 5` — the `except` handler the fallback lives in is never
entered, so the behaviour the spec describes does not occur. -/
theorem c3_kcore_divergence :
    maxCoreInt (simplify rawC7) = 1 ∧
    hasSelfLoop (simplify rawC7) = false ∧
    (plotSection (simplify rawC7) argsC3 layC3).1 =
      ["Wrote marvel_network_full.png", "Wrote marvel_network_kcore5.png"] ∧
    ((plotSection (simplify rawC7) argsC3 layC3).2.getD 1 noFile).name =
      "marvel_network_kcore5.png" ∧
    ((plotSection (simplify rawC7) argsC3 layC3).2.getD 1 noFile).nodePos = [] := by
  exact ⟨by decide, by decide, by decide, by decide, by decide⟩

end MarvelStats
